import Mathlib

/-!
Verification development for the PolyCzarUI pricing-and-execution engine.

Shallow embedding of the JavaScript sources:
* `src/utils/optionsPricingModel.js` — AMM liquidity pools (`AMMOptionsPricing`)
* `src/utils/orderBook.js`           — limit order book (`OrderBook`)
* `src/utils/pricingModels.js`       — pricing models and factory
* `src/utils/volatility.js`          — volatility service

JavaScript numbers are embedded as rationals (`ℚ`); the only places where
non-finite values (NaN) matter are modelled with `Option ℚ` (`none` = NaN).
Transcendental library calls (`Math.exp`, `Math.log`, `Math.sqrt`) are taken
as parameters of the definitions that use them, constrained only by the
exact values the analysed execution paths need (e.g. `exp 0 = 1`).
-/

namespace PolyCzar

/-! ## AMM options pricing (`src/utils/optionsPricingModel.js`)

Constants from the top of the file:
`LP_FEE_PERCENT = 0.003`, `PROTOCOL_FEE_PERCENT = 0.001`,
`TOTAL_FEE_PERCENT = 0.004`, `MIN_LIQUIDITY = 1000`,
`PRICE_IMPACT_MULTIPLIER = 2`. -/

def TOTAL_FEE_PERCENT : ℚ := 3/1000 + 1/1000

def MIN_LIQUIDITY : ℚ := 1000

def PRICE_IMPACT_MULTIPLIER : ℚ := 2

/-- A liquidity provider's record (`pool.providers[provider]`), without the
`lastDeposit` timestamp (timestamps never influence pool arithmetic). -/
structure ProviderEntry where
  amount : ℚ
  entryPrice : ℚ
deriving DecidableEq, Repr

/-- A liquidity pool (`this.liquidityPools[optionId]`), without the
`lastUpdate`/`created` timestamps and the unused constant-product field `k`.
`providers` is the JS object keyed by provider id, embedded as an
association list (keys unique by construction of the operations). -/
structure Pool where
  price : ℚ
  midPrice : ℚ
  bidPrice : ℚ
  askPrice : ℚ
  totalLiquidity : ℚ
  buyVolume : ℚ
  sellVolume : ℚ
  providers : List (String × ProviderEntry)
deriving DecidableEq, Repr

/-- `_initializePool(optionId, initialPrice)`. -/
def initializePool (initialPrice : ℚ) : Pool :=
  { price := initialPrice
    midPrice := initialPrice
    bidPrice := initialPrice * (95/100)
    askPrice := initialPrice * (105/100)
    totalLiquidity := MIN_LIQUIDITY
    buyVolume := 0
    sellVolume := 0
    providers := [] }

/-- Look up a provider (`pool.providers[provider]`). -/
def Pool.findProv (pool : Pool) (provider : String) : Option ProviderEntry :=
  (pool.providers.find? (fun e => e.1 = provider)).map (·.2)

/-- The provider's tracked contribution, `0` when absent. -/
def Pool.provAmount (pool : Pool) (provider : String) : ℚ :=
  ((pool.findProv provider).map (·.amount)).getD 0

/-- Replace the entry stored under `provider` (JS object assignment on an
existing key; keys are unique, so replacing the first occurrence is exact). -/
def setProv (l : List (String × ProviderEntry)) (provider : String)
    (e : ProviderEntry) : List (String × ProviderEntry) :=
  match l with
  | [] => []
  | (k, v) :: t => if k = provider then (k, e) :: t else (k, v) :: setProv t provider e

/-- `delete pool.providers[provider]`. -/
def delProv (l : List (String × ProviderEntry)) (provider : String) :
    List (String × ProviderEntry) :=
  match l with
  | [] => []
  | (k, v) :: t => if k = provider then t else (k, v) :: delProv t provider

/-- `addLiquidity(optionId, provider, amount, optionDetails)` acting on an
existing pool.  The JS function performs no validation of `amount`: it
creates the provider entry if absent (with `entryPrice = pool.price`),
adds `amount` to the provider's balance and sets
`pool.totalLiquidity = (pool.totalLiquidity || MIN_LIQUIDITY) + amount`
(`x || y` on numbers is `y` exactly when `x` is `0` or NaN; pool totals are
always finite here). -/
def addLiquidity (pool : Pool) (provider : String) (amount : ℚ) : Pool :=
  let entry := (pool.findProv provider).getD { amount := 0, entryPrice := pool.price }
  let providers1 :=
    if (pool.findProv provider).isSome then pool.providers
    else pool.providers ++ [(provider, { amount := 0, entryPrice := pool.price })]
  let entry' : ProviderEntry := { entry with amount := entry.amount + amount }
  { pool with
      providers := setProv providers1 provider entry'
      totalLiquidity :=
        (if pool.totalLiquidity = 0 then MIN_LIQUIDITY else pool.totalLiquidity) + amount }

/-- Errors surfaced by the pool operations (`throw new Error(...)`). -/
inductive AmmError where
  | insufficientLiquidity   -- 'Insufficient liquidity'
  | initialPriceRequired    -- 'Initial price is required to calculate impermanent loss'
deriving DecidableEq, Repr

/-- The exception behaviour of `calculateImpermanentLoss(optionId, details)`:
it throws exactly when `!optionDetails.initialPrice` (the entry price passed
in is `0`); otherwise it only computes a number (no further throw is
reachable: the body's arithmetic and `_calculateImpliedVolatility` cannot
throw, and its numeric result is never used for state updates). -/
def calcImpermanentLossCheck (initialPrice : ℚ) : Except AmmError Unit :=
  if initialPrice = 0 then .error .initialPriceRequired else .ok ()

/-- `removeLiquidity(optionId, provider, amount, optionDetails)` acting on an
existing pool.  Mirrors the source order: (1) missing provider entry or
`entry.amount < amount` throws `'Insufficient liquidity'`; (2) on a full
withdrawal (`entry.amount === amount`) `calculateImpermanentLoss` runs first
and throws when the recorded `entryPrice` is `0`; (3) only then the balance
is decreased, the entry deleted when the balance is `≤ 0`, and
`pool.totalLiquidity = Math.max(MIN_LIQUIDITY, pool.totalLiquidity - amount)`.
All mutations happen after every possible throw, so an error leaves the JS
pool object untouched (hence the `Except` embedding returns no pool then). -/
def removeLiquidity (pool : Pool) (provider : String) (amount : ℚ) :
    Except AmmError Pool :=
  match pool.findProv provider with
  | none => .error .insufficientLiquidity
  | some entry =>
    if entry.amount < amount then .error .insufficientLiquidity
    else match (if entry.amount = amount
                then calcImpermanentLossCheck entry.entryPrice else .ok ()) with
    | .error e => .error e
    | .ok () =>
      let newAmount := entry.amount - amount
      let providers' :=
        if newAmount ≤ 0 then delProv pool.providers provider
        else setProv pool.providers provider { entry with amount := newAmount }
      .ok { pool with
              providers := providers'
              totalLiquidity := max MIN_LIQUIDITY (pool.totalLiquidity - amount) }

/-- The record returned by `executeTrade` (timestamps omitted). -/
structure TradeResult where
  price : ℚ
  executionPrice : ℚ
  priceImpactPct : ℚ
  fee : ℚ
deriving DecidableEq, Repr

/-- `executeTrade(optionId, isBuy, amount, optionDetails)` acting on an
existing pool.  The embedded function takes the `{midPrice, bidPrice,
askPrice}` produced by the internal `calculatePrice` call as inputs (that
call evaluates the floating-point pricing pipeline; its side effect
`_updatePoolState` is applied first, exactly as in the source).  Then, as in
the source: `fee = amount * (isBuy ? askPrice : bidPrice) * TOTAL_FEE_PERCENT`;
`effectiveLiquidity = pool.totalLiquidity || MIN_LIQUIDITY`;
`priceImpact = min(0.15, (amount / effectiveLiquidity) * PRICE_IMPACT_MULTIPLIER)`;
`executionPrice = isBuy ? askPrice * (1 + priceImpact) : bidPrice * (1 - priceImpact)`;
buy/sell volume grows by `amount` and `pool.price` moves to the clamped
post-impact mid. -/
def executeTrade (pool : Pool) (isBuy : Bool) (amount midPrice bidPrice askPrice : ℚ) :
    Pool × TradeResult :=
  let pool0 : Pool :=
    { pool with price := midPrice, midPrice := midPrice,
                bidPrice := bidPrice, askPrice := askPrice }
  let fee := amount * (if isBuy then askPrice else bidPrice) * TOTAL_FEE_PERCENT
  let effectiveLiquidity :=
    if pool0.totalLiquidity = 0 then MIN_LIQUIDITY else pool0.totalLiquidity
  let priceImpact := min (15/100) ((amount / effectiveLiquidity) * PRICE_IMPACT_MULTIPLIER)
  let executionPrice :=
    if isBuy then askPrice * (1 + priceImpact) else bidPrice * (1 - priceImpact)
  let pool' :=
    if isBuy then
      { pool0 with buyVolume := pool0.buyVolume + amount
                   price := min (99/100) (midPrice + midPrice * priceImpact) }
    else
      { pool0 with sellVolume := pool0.sellVolume + amount
                   price := max (1/100) (midPrice - midPrice * priceImpact) }
  (pool', { price := if isBuy then askPrice else bidPrice
            executionPrice := executionPrice
            priceImpactPct := priceImpact * 100
            fee := fee })

/-- The pool operations a caller of `AMMOptionsPricing` can perform on one
pool after it is created: `addLiquidity`, `removeLiquidity` (a throw leaves
the pool untouched), `executeTrade` (with the prices its internal
`calculatePrice` call produced), and `calculatePrice` alone (whose
`_updatePoolState` rewrites the stored prices). -/
inductive PoolOp where
  | addLiq (provider : String) (amount : ℚ)
  | remLiq (provider : String) (amount : ℚ)
  | trade (isBuy : Bool) (amount midPrice bidPrice askPrice : ℚ)
  | reprice (midPrice bidPrice askPrice : ℚ)
deriving DecidableEq, Repr

/-- One step of the pool state machine. -/
def poolStep (pool : Pool) (op : PoolOp) : Pool :=
  match op with
  | .addLiq provider amount => addLiquidity pool provider amount
  | .remLiq provider amount =>
    match removeLiquidity pool provider amount with
    | .ok pool' => pool'
    | .error _ => pool
  | .trade isBuy amount midPrice bidPrice askPrice =>
    (executeTrade pool isBuy amount midPrice bidPrice askPrice).1
  | .reprice midPrice bidPrice askPrice =>
    { pool with price := midPrice, midPrice := midPrice,
                bidPrice := bidPrice, askPrice := askPrice }

/-- Run a sequence of pool operations from a freshly initialized pool. -/
def runPool (initialPrice : ℚ) (ops : List PoolOp) : Pool :=
  ops.foldl poolStep (initializePool initialPrice)

/-- An `addLiquidity` operation with a positive amount (the spec's contract
for `addLiquidity`); all other operations are unrestricted. -/
def PoolOp.addPositive : PoolOp → Prop
  | .addLiq _ amount => 0 < amount
  | _ => True

instance : DecidablePred PoolOp.addPositive := by
  intro op; cases op <;> simp [PoolOp.addPositive] <;> infer_instance

/-! ## Order book (`src/utils/orderBook.js`)

The client class keeps one book per `optionId`; the claims are each about a
single book, so the embedding models one book.  JS numbers are rationals;
`Date.now()` timestamps are threaded as explicit inputs. -/

/-- Order status (`'active' | 'filled' | 'cancelled'`). -/
inductive OrderStatus where
  | active
  | filled
  | cancelled
deriving DecidableEq, Repr

/-- An order as created by `placeOrder` (the `optionDetails` payload is
opaque to matching and omitted). -/
structure Order where
  id : Nat
  userId : String
  isBid : Bool
  price : ℚ
  quantity : ℚ
  timestamp : Nat
  status : OrderStatus
  filled : ℚ
deriving DecidableEq, Repr

/-- A trade record created by `matchOrders` / `executeMarketOrder`
(`total = price * quantity`; ids/timestamps of the record itself omitted). -/
structure BookTrade where
  buyOrderId : Nat
  sellOrderId : Nat
  price : ℚ
  quantity : ℚ
deriving DecidableEq, Repr

/-- `Math.round` (round half away from zero is `floor (x + 1/2)` for the
non-negative quantities accepted by `placeOrder`). -/
def jsRound (q : ℚ) : ℚ := (⌊q + 1/2⌋ : ℤ)

/-- `Number(price.toFixed(2))`: rounding to two decimal places (exact for
the two-decimal prices used throughout; `toFixed` rounds to the nearest
two-decimal value). -/
def round2 (q : ℚ) : ℚ := (⌊q * 100 + 1/2⌋ : ℤ) / 100

/-- The comparator `(a, b) => b.price - a.price` used to sort bids:
descending by price.  `List.insertionSort` with this relation is a stable
sort, as `Array.prototype.sort` is. -/
def bidBefore (a b : Order) : Prop := b.price ≤ a.price

/-- The comparator `(a, b) => a.price - b.price` used to sort asks:
ascending by price. -/
def askBefore (a b : Order) : Prop := a.price ≤ b.price

instance : DecidableRel bidBefore := fun a b => inferInstanceAs (Decidable (b.price ≤ a.price))
instance : DecidableRel askBefore := fun a b => inferInstanceAs (Decidable (a.price ≤ b.price))

instance : IsTotal Order bidBefore := ⟨fun a b => le_total b.price a.price⟩
instance : IsTrans Order bidBefore := ⟨fun _ _ _ h1 h2 => le_trans h2 h1⟩
instance : IsTotal Order askBefore := ⟨fun a b => le_total a.price b.price⟩
instance : IsTrans Order askBefore := ⟨fun _ _ _ h1 h2 => le_trans h1 h2⟩

/-- State of one order book: the resting `bids`/`asks` arrays plus the
global `orders` map (keyed by order id) and the id counter. -/
structure BookState where
  bids : List Order
  asks : List Order
  orders : List Order
  lastOrderId : Nat
deriving DecidableEq, Repr

def emptyBook : BookState := { bids := [], asks := [], orders := [], lastOrderId := 0 }

/-- Write back the final versions of touched orders into the `orders` map
(in JS the map holds references to the very objects the book mutates). -/
def updateOrders (orders : List Order) (news : List Order) : List Order :=
  orders.map fun o => ((news.find? (fun n => n.id = o.id)).getD o)

/-- One iteration result of the `matchOrders` while-loop, driven by fuel.
The loop body (source lines 186-237): while both sides are non-empty and
`topBid.price >= topAsk.price`, trade at the earlier order's price for
`min` of the remaining quantities, update `filled`, and remove (marking
`'filled'`) each side that is completely filled.  Each iteration removes at
least one order (the trade size equals one of the two remainders), so
`bids.length + asks.length` iterations always suffice; `matchOrders` below
supplies exactly that fuel, making this embedding equal to the unbounded
loop. -/
def matchLoop : Nat → List Order → List Order → List BookTrade → List Order →
    List Order × List Order × List BookTrade × List Order
  | 0, bids, asks, trades, touched => (bids, asks, trades, touched)
  | fuel + 1, bids, asks, trades, touched =>
    match bids, asks with
    | topBid :: restBids, topAsk :: restAsks =>
      if topBid.price ≥ topAsk.price then
        let executionPrice :=
          if topBid.timestamp < topAsk.timestamp then topBid.price else topAsk.price
        let tradeSize := min (topBid.quantity - topBid.filled)
                             (topAsk.quantity - topAsk.filled)
        let bid' : Order := { topBid with filled := topBid.filled + tradeSize }
        let ask' : Order := { topAsk with filled := topAsk.filled + tradeSize }
        let trade : BookTrade :=
          { buyOrderId := topBid.id, sellOrderId := topAsk.id,
            price := executionPrice, quantity := tradeSize }
        let bids' :=
          if bid'.filled ≥ bid'.quantity then restBids else bid' :: restBids
        let touchedB :=
          if bid'.filled ≥ bid'.quantity then [{ bid' with status := OrderStatus.filled }]
          else [bid']
        let asks' :=
          if ask'.filled ≥ ask'.quantity then restAsks else ask' :: restAsks
        let touchedA :=
          if ask'.filled ≥ ask'.quantity then [{ ask' with status := OrderStatus.filled }]
          else [ask']
        matchLoop fuel bids' asks' (trades ++ [trade]) (touched ++ touchedB ++ touchedA)
      else (bids, asks, trades, touched)
    | _, _ => (bids, asks, trades, touched)

/-- `matchOrders(optionId)`: run the matching loop to completion and write
the touched orders back to the `orders` map.  Returns the executed trades. -/
def matchOrders (s : BookState) : BookState × List BookTrade :=
  let r := matchLoop (s.bids.length + s.asks.length) s.bids s.asks [] []
  ({ s with bids := r.1, asks := r.2.1, orders := updateOrders s.orders r.2.2.2 },
   r.2.2.1)

/-- `placeOrder(optionId, userId, isBid, price, quantity)`: validate
(`!userId || quantity <= 0` throws `'Invalid order parameters'`; `optionId`
and `price` are always supplied here), create the order with the price
standardized to 2 decimals and the quantity rounded to a whole number,
append it to its side, re-sort that side with the stable array sort, and
run `matchOrders`.  Returns the new state and the trades of the match cycle
(`none` when validation throws, which happens before any mutation). -/
def placeOrder (s : BookState) (userId : String) (isBid : Bool)
    (price quantity : ℚ) (timestamp : Nat) :
    Option (BookState × List BookTrade) :=
  if userId = "" ∨ quantity ≤ 0 then none
  else
    let orderId := s.lastOrderId + 1
    let order : Order :=
      { id := orderId, userId := userId, isBid := isBid,
        price := round2 price, quantity := jsRound quantity,
        timestamp := timestamp, status := .active, filled := 0 }
    let s1 : BookState :=
      { s with
          lastOrderId := orderId
          orders := s.orders ++ [order]
          bids := if isBid then (s.bids ++ [order]).insertionSort bidBefore else s.bids
          asks := if isBid then s.asks else (s.asks ++ [order]).insertionSort askBefore }
    some (matchOrders s1)

/-- A `placeOrder` request. -/
structure PlaceCmd where
  userId : String
  isBid : Bool
  price : ℚ
  quantity : ℚ
  timestamp : Nat
deriving DecidableEq, Repr

/-- One `placeOrder` call as a state transformer (a call whose validation
throws leaves the state unchanged). -/
def placeStep (s : BookState) (c : PlaceCmd) : BookState :=
  match placeOrder s c.userId c.isBid c.price c.quantity c.timestamp with
  | some (s2, _) => s2
  | none => s

/-- Run a sequence of `placeOrder` calls from a state. -/
def runPlace (s : BookState) (cmds : List PlaceCmd) : BookState :=
  cmds.foldl placeStep s

/-- The book invariant of the claim: no active bid price ≥ any active ask
price (every resting order has status `active`: `placeOrder` inserts orders
with status `active` and the match loop only ever removes an order from the
book when it marks it `filled`). -/
def crossFree (s : BookState) : Prop :=
  ∀ b ∈ s.bids, ∀ a ∈ s.asks, b.price < a.price

/-- Total remaining quantity of a side,
`orderList.reduce((sum, order) => sum + (order.quantity - order.filled), 0)`. -/
def availableQuantity (orders : List Order) : ℚ :=
  (orders.map (fun o => o.quantity - o.filled)).sum

/-- A trade of `executeMarketOrder` (only the fields the claim mentions). -/
structure MarketTrade where
  price : ℚ
  quantity : ℚ
deriving DecidableEq, Repr

/-- The fill loop of `executeMarketOrder` (source lines 264-290): while the
requested quantity is outstanding and the side is non-empty, fill
`min(remaining, head.quantity - head.filled)` against the head order,
record a trade, and remove the head (marking it `filled`) when it is
completely filled.  When the head is *not* completely filled the new
outstanding quantity is `0` (the fill was `min` and was smaller than the
head's remainder), so the loop exits — the embedding returns directly in
that branch.  Returns (trades, remaining side, touched orders). -/
def marketFillLoop (remaining : ℚ) (orders : List Order) :
    List MarketTrade × List Order × List Order :=
  match orders with
  | [] => ([], [], [])
  | c :: rest =>
    if remaining ≤ 0 then ([], c :: rest, [])
    else
      let fillAmount := min remaining (c.quantity - c.filled)
      let trade : MarketTrade := { price := c.price, quantity := fillAmount }
      let c' : Order := { c with filled := c.filled + fillAmount }
      if c'.filled ≥ c'.quantity then
        let (trades, rest', touched) := marketFillLoop (remaining - fillAmount) rest
        (trade :: trades, rest', { c' with status := .filled } :: touched)
      else
        ([trade], c' :: rest, [c'])

/-- Result of `executeMarketOrder` (the fields the claim mentions). -/
structure MarketResult where
  trades : List MarketTrade
  newSide : List Order
  touched : List Order
  averagePrice : ℚ
deriving DecidableEq, Repr

/-- `executeMarketOrder(optionId, userId, isBuy, quantity)`: the opposite
side (`asks` for a buy, `bids` for a sell) is checked for depth first —
if `availableQuantity < quantity` the call throws
`'Insufficient liquidity for market order'` before touching any order —
then the fill loop runs and the volume-weighted average price
`totalValue / totalQuantity` is computed from the executed trades. -/
def executeMarketOrder (sideOrders : List Order) (quantity : ℚ) :
    Except Unit MarketResult :=
  if availableQuantity sideOrders < quantity then .error ()
  else
    let r := marketFillLoop quantity sideOrders
    let totalQuantity := (r.1.map (·.quantity)).sum
    let totalValue := (r.1.map (fun t => t.price * t.quantity)).sum
    .ok { trades := r.1, newSide := r.2.1, touched := r.2.2,
          averagePrice := totalValue / totalQuantity }

/-! ## Volatility service (`src/utils/volatility.js`)

`calculateHistoricalVolatility(marketId, days)` works on the list of
historical probability values (in percent).  `Math.log` and `Math.sqrt` are
irrational-valued and appear here as parameters `jlog jsqrt : ℚ → ℚ`; every
statement below holds for all choices of these parameters. -/

def defaultVolatility : ℚ := 1/2

def minVolatility : ℚ := 1/4

/-- A historical point is usable when its decimal probability lies strictly
between 0 and 1 (otherwise the log-return is skipped, source lines 118-121). -/
def usablePoint (probPct : ℚ) : Prop := 0 < probPct / 100 ∧ probPct / 100 < 1

instance : DecidablePred usablePoint := fun p => by unfold usablePoint; infer_instance

/-- The `returns` array built by the loop at source lines 113-125: one
log-return `log(currProb / prevProb)` per consecutive pair whose two
endpoints are both usable. -/
def logReturns (jlog : ℚ → ℚ) : List ℚ → List ℚ
  | [] => []
  | [_] => []
  | p :: c :: rest =>
    (if usablePoint p ∧ usablePoint c
     then [jlog ((c / 100) / (p / 100))] else []) ++ logReturns jlog (c :: rest)

/-- `calculateHistoricalVolatility` on the fetched series (source lines
102-145): fewer than 2 raw points → default; fewer than 2 usable returns →
default; otherwise annualize the sample standard deviation of the returns
(`variance` divides by `returns.length - 1`) and floor at `minVolatility`. -/
def calculateHistoricalVolatility (jlog jsqrt : ℚ → ℚ) (historicalData : List ℚ) : ℚ :=
  if historicalData.length < 2 then defaultVolatility
  else
    let returns := logReturns jlog historicalData
    if returns.length < 2 then defaultVolatility
    else
      let mean := returns.sum / returns.length
      let variance := (returns.map (fun b => (b - mean) ^ 2)).sum / ((returns.length : ℚ) - 1)
      let dailyVol := jsqrt variance
      let annualizedVol := dailyVol * jsqrt 365
      max minVolatility annualizedVol

/-- The claim's reference quantity: the sample standard deviation of a list
of returns (mean via `sum/n`, variance via `Σ(x−mean)²/(n−1)`), written
independently of the implementation above. -/
def sampleStdDev (jsqrt : ℚ → ℚ) (returns : List ℚ) : ℚ :=
  let n : ℚ := returns.length
  let mean := returns.sum / n
  jsqrt (((returns.map (fun x => (x - mean) ^ 2)).sum) / (n - 1))

/-- The points of the series that are usable (probability strictly inside
(0,1)); the claim's "usable points". -/
def usablePoints (historicalData : List ℚ) : List ℚ :=
  historicalData.filter (fun p => decide (usablePoint p))

/-! ## Pricing models (`src/utils/pricingModels.js`)

JS numbers that can become non-finite are embedded as `Option ℚ`:
`some q` is the finite value `q`, `none` is NaN.  On the execution paths
analysed below the only division by a zero denominator is `0/0` (which is
NaN in JS), so `jdiv` mapping every zero denominator to `none` is exact
there; NaN propagates through arithmetic (`0 * NaN = NaN` in IEEE) and
makes every comparison false. -/

abbrev JsNum := Option ℚ

def jadd : JsNum → JsNum → JsNum
  | some a, some b => some (a + b)
  | _, _ => none

def jsub : JsNum → JsNum → JsNum
  | some a, some b => some (a - b)
  | _, _ => none

def jmul : JsNum → JsNum → JsNum
  | some a, some b => some (a * b)
  | _, _ => none

def jdiv : JsNum → JsNum → JsNum
  | some a, some b => if b = 0 then none else some (a / b)
  | _, _ => none

def jneg : JsNum → JsNum
  | some a => some (-a)
  | none => none

/-- `Math.abs` (NaN-propagating). -/
def jabs : JsNum → JsNum
  | some a => some |a|
  | none => none

/-- `Math.min` (NaN-propagating, as in JS). -/
def jmin : JsNum → JsNum → JsNum
  | some a, some b => some (min a b)
  | _, _ => none

/-- `Math.max` (NaN-propagating, as in JS). -/
def jmax : JsNum → JsNum → JsNum
  | some a, some b => some (max a b)
  | _, _ => none

/-- `Math.pow` with a natural exponent (the tree uses `steps - i` and `i`). -/
def jpow (x : JsNum) : Nat → JsNum
  | 0 => some 1
  | n + 1 => jmul x (jpow x n)

/-- Strict `>` on JS numbers: false whenever NaN is involved. -/
def jgtBool : JsNum → JsNum → Bool
  | some a, some b => a > b
  | _, _ => false

/-- The transcendental `Math` calls used by the pricing models, taken as
parameters.  `log` and `sqrt` are only ever applied to rational arguments
in the embedded code (`S/K`, `timeToExpiry`, `dt`), `exp` also to computed
(possibly NaN) values. -/
structure MathPrims where
  exp : JsNum → JsNum
  log : ℚ → JsNum
  sqrt : ℚ → JsNum

inductive OptionType where
  | call
  | put
deriving DecidableEq, Repr

/-- Price-relevant inputs of `calculatePrice` in both models
(`currentProbability`/`strikeProbability` in percent). -/
structure PriceParams where
  currentProbability : ℚ
  strikeProbability : ℚ
  timeToExpiry : ℚ
  volatility : ℚ
  riskFreeRate : ℚ
  optionType : OptionType
  liquidityFactor : ℚ
deriving DecidableEq, Repr

/-- A quote `{midPrice, bidPrice, askPrice}` (Greeks omitted: they never
feed back into prices and the claims do not mention them). -/
structure Quote where
  midPrice : JsNum
  bidPrice : JsNum
  askPrice : JsNum
deriving DecidableEq, Repr

/-- `BlackScholesBinaryModel.normalCDF(x)` (the Abramowitz–Stegun
approximation at source lines 176-187). -/
def normalCDF (prims : MathPrims) (x : JsNum) : JsNum :=
  let t := jdiv (some 1) (jadd (some 1) (jmul (some (2316419/10000000)) (jabs x)))
  let d := jmul (some (3989423/10000000)) (prims.exp (jdiv (jneg (jmul x x)) (some 2)))
  let prob := jmul (jmul d t)
    (jadd (some (3193815/10000000))
      (jmul t (jadd (some (-3565638/10000000))
        (jmul t (jadd (some (1781478/1000000))
          (jmul t (jadd (some (-1821256/1000000))
            (jmul t (some (1330274/1000000))))))))))
  if jgtBool x (some 0) then jsub (some 1) prob else prob

/-- `BlackScholesBinaryModel.calculateD1D2` (source lines 158-171). -/
def calculateD1D2 (prims : MathPrims) (S K timeToExpiry volatility riskFreeRate : ℚ) :
    JsNum × JsNum :=
  if S = 0 ∨ S = 1 ∨ volatility < 1/100 ∨ timeToExpiry < 1/1000 then
    (some 0, some 0)
  else
    let sqrtT := prims.sqrt timeToExpiry
    let d1 := jdiv
      (jadd (prims.log (S / K))
            (some ((riskFreeRate + (1/2) * volatility ^ 2) * timeToExpiry)))
      (jmul (some volatility) sqrtT)
    let d2 := jsub d1 (jmul (some volatility) sqrtT)
    (d1, d2)

/-- `BlackScholesBinaryModel.calculatePrice` (source lines 32-153), prices
only.  The `timeToExpiry <= 0` branch returns the pure payoff; the
near-boundary guards return fixed quotes; otherwise the binary
Black–Scholes value `e^(−rT)·N(±d2)` is clamped to [0,1] and the liquidity
spread `0.05·(1+liquidityFactor)` is applied. -/
def bsCalculatePrice (prims : MathPrims) (p : PriceParams) : Quote :=
  let S := p.currentProbability / 100
  let K := p.strikeProbability / 100
  if p.timeToExpiry ≤ 0 then
    let midPrice : ℚ :=
      match p.optionType with
      | .call => if S > K then 1 else 0
      | .put => if S < K then 1 else 0
    { midPrice := some midPrice, bidPrice := some midPrice, askPrice := some midPrice }
  else if S < 1/1000 ∧ p.optionType = .call then
    { midPrice := some (1/1000), bidPrice := some 0, askPrice := some (2/1000) }
  else if S > 999/1000 ∧ p.optionType = .put then
    { midPrice := some (1/1000), bidPrice := some 0, askPrice := some (2/1000) }
  else
    let d2 := (calculateD1D2 prims S K p.timeToExpiry p.volatility p.riskFreeRate).2
    let discount := prims.exp (some (-(p.riskFreeRate * p.timeToExpiry)))
    let midRaw :=
      match p.optionType with
      | .call => jmul discount (normalCDF prims d2)
      | .put => jmul discount (normalCDF prims (jneg d2))
    let midPrice := jmax (some 0) (jmin (some 1) midRaw)
    let dynamicSpread : ℚ := (5/100) * (1 + p.liquidityFactor)
    { midPrice := midPrice
      bidPrice := jmax (some 0) (jsub midPrice (some (dynamicSpread / 2)))
      askPrice := jmin (some 1) (jadd midPrice (some (dynamicSpread / 2))) }

/-- Number of lattice steps,
`Math.max(5, Math.min(50, Math.ceil(timeToExpiry * 365)))`. -/
def treeSteps (timeToExpiry : ℚ) : Nat :=
  max 5 (min 50 (Int.toNat ⌈timeToExpiry * 365⌉))

/-- One backward-induction step over a layer of the tree (source lines
268-273): node `i` of layer `j` becomes
`exp(-r·dt) * (p * tree[i][j+1] + (1-p) * tree[i+1][j+1])`. -/
def backStep (discount p : JsNum) : List JsNum → List JsNum
  | a :: b :: rest => jmul discount (jadd (jmul p a) (jmul (jsub (some 1) p) b))
      :: backStep discount p (b :: rest)
  | _ => []

/-- `BinomialModel.buildTree` root value (source lines 249-276): terminal
layer `tree[i][i] = (S·u^(steps−i)·d^i > K) ? 1 : 0` for `i = 0..steps`,
then `steps` backward-induction steps; the root is `tree[0][0]`. -/
def buildTreeRoot (prims : MathPrims) (steps : Nat)
    (S K timeToExpiry volatility riskFreeRate : ℚ) : JsNum :=
  let dt := timeToExpiry / steps
  let u := prims.exp (jmul (some volatility) (prims.sqrt dt))
  let d := jdiv (some 1) u
  let p := jdiv (jsub (prims.exp (some (riskFreeRate * dt))) d) (jsub u d)
  let leaves := (List.range (steps + 1)).map fun i =>
    if jgtBool (jmul (jmul (some S) (jpow u (steps - i))) (jpow d i)) (some K)
    then some 1 else (some 0 : JsNum)
  let discount := prims.exp (some (-(riskFreeRate * dt)))
  ((backStep discount p)^[steps] leaves).headD none

/-- `BinomialModel.calculatePrice` (source lines 205-244), prices only:
`midPrice = tree[0][0]`, then the same liquidity spread as the
closed-form model.  There is no `timeToExpiry <= 0` guard in this model. -/
def binomialCalculatePrice (prims : MathPrims) (p : PriceParams) : Quote :=
  let S := p.currentProbability / 100
  let K := p.strikeProbability / 100
  let steps := treeSteps p.timeToExpiry
  let midPrice :=
    buildTreeRoot prims steps S K p.timeToExpiry p.volatility p.riskFreeRate
  let dynamicSpread : ℚ := (5/100) * (1 + p.liquidityFactor)
  { midPrice := midPrice
    bidPrice := jmax (some 0) (jsub midPrice (some (dynamicSpread / 2)))
    askPrice := jmin (some 1) (jadd midPrice (some (dynamicSpread / 2))) }

inductive ModelKind where
  | binomial
  | blackScholes
deriving DecidableEq, Repr

/-- `PricingModelFactory.createModel` (source lines 283-293): the tree
model for `timeToExpiry < 7/365`, the closed-form model otherwise. -/
def createModelKind (timeToExpiry : ℚ) : ModelKind :=
  if timeToExpiry < 7/365 then .binomial else .blackScholes

/-- The full pricing path: model selection followed by the selected
model's `calculatePrice`. -/
def factoryCalculatePrice (prims : MathPrims) (p : PriceParams) : Quote :=
  match createModelKind p.timeToExpiry with
  | .binomial => binomialCalculatePrice prims p
  | .blackScholes => bsCalculatePrice prims p

/-- Concrete stand-in for the `Math` primitives, defined only at the
arguments the `timeToExpiry = 0` path evaluates them on (`exp 0`,
`sqrt 0`); used to instantiate quantified theorems at a concrete input. -/
def stubPrims : MathPrims :=
  { exp := fun x => if x = some 0 then some 1 else none
    log := fun _ => none
    sqrt := fun q => if q = 0 then some 0 else none }

/-! ## Association-list lemmas for the provider map -/

theorem find?_of_not_mem_keys {l : List (String × ProviderEntry)} {prov : String}
    (h : prov ∉ l.map Prod.fst) : l.find? (fun x => x.1 = prov) = none := by
  induction l with
  | nil => rfl
  | cons kv t ih =>
    simp only [List.map_cons, List.mem_cons] at h
    push_neg at h
    rw [List.find?_cons_of_neg, ih h.2]
    simp [h.1.symm]

theorem find?_setProv_self {l : List (String × ProviderEntry)} {prov : String}
    (e : ProviderEntry) (h : (l.find? (fun x => x.1 = prov)).isSome) :
    (setProv l prov e).find? (fun x => x.1 = prov) = some (prov, e) := by
  induction l with
  | nil => simp [List.find?] at h
  | cons kv t ih =>
    by_cases hk : kv.1 = prov
    · subst hk
      simp [setProv, List.find?]
    · rw [List.find?_cons_of_neg _ (by simp [hk])] at h
      obtain ⟨k, v⟩ := kv
      simp only at hk
      simp only [setProv, if_neg hk]
      rw [List.find?_cons_of_neg _ (by simp [hk])]
      exact ih h

theorem find?_append_singleton_self (l : List (String × ProviderEntry)) (prov : String)
    (e : ProviderEntry) :
    ((l ++ [(prov, e)]).find? (fun x => x.1 = prov)).isSome := by
  induction l with
  | nil => simp [List.find?]
  | cons kv t ih =>
    by_cases hk : kv.1 = prov
    · simp [List.find?_cons_of_pos, hk]
    · rw [List.cons_append, List.find?_cons_of_neg _ (by simp [hk])]
      exact ih

theorem keys_setProv (l : List (String × ProviderEntry)) (prov : String) (e : ProviderEntry) :
    (setProv l prov e).map Prod.fst = l.map Prod.fst := by
  induction l with
  | nil => rfl
  | cons kv t ih =>
    obtain ⟨k, v⟩ := kv
    by_cases hk : k = prov
    · simp [setProv, hk]
    · simp [setProv, hk, ih]

theorem find?_delProv_self {l : List (String × ProviderEntry)} {prov : String}
    (hnd : (l.map Prod.fst).Nodup) :
    (delProv l prov).find? (fun x => x.1 = prov) = none := by
  induction l with
  | nil => rfl
  | cons kv t ih =>
    obtain ⟨k, v⟩ := kv
    simp only [List.map_cons, List.nodup_cons] at hnd
    by_cases hk : k = prov
    · subst hk
      simpa [delProv] using find?_of_not_mem_keys hnd.1
    · simp only [delProv, if_neg hk]
      rw [List.find?_cons_of_neg _ (by simp [hk])]
      exact ih hnd.2

theorem findProv_addLiquidity_self (pool : Pool) (prov : String) (a : ℚ) :
    (addLiquidity pool prov a).findProv prov =
      some { amount := pool.provAmount prov + a
             entryPrice := ((pool.findProv prov).map (·.entryPrice)).getD pool.price } := by
  simp only [addLiquidity, Pool.provAmount, Pool.findProv]
  rcases hfind : pool.providers.find? (fun x => x.1 = prov) with _ | kv
  · simp only [hfind, Option.map_none', Option.isSome_none, Bool.false_eq_true, if_false,
      Option.getD_none]
    rw [find?_setProv_self _ (find?_append_singleton_self _ _ _)]
    simp
  · simp only [hfind, Option.map_some', Option.isSome_some, if_true, Option.getD_some]
    rw [find?_setProv_self _ (by simp [hfind])]
    simp

theorem keys_addLiquidity_nodup {pool : Pool} (prov : String) (a : ℚ)
    (hnd : (pool.providers.map Prod.fst).Nodup) :
    ((addLiquidity pool prov a).providers.map Prod.fst).Nodup := by
  unfold addLiquidity
  by_cases hs : (pool.providers.find? (fun x => x.1 = prov)).isSome
  · simpa [Pool.findProv, hs, keys_setProv] using hnd
  · have hnone : pool.providers.find? (fun x => x.1 = prov) = none := by
      cases h' : pool.providers.find? (fun x => x.1 = prov) <;> simp [h'] at hs ⊢
    have hnotmem : prov ∉ pool.providers.map Prod.fst := by
      intro hmem
      obtain ⟨⟨k, v⟩, hkv, hk⟩ := List.mem_map.mp hmem
      have hne := List.find?_eq_none.mp hnone _ hkv
      simp only at hk
      simp [hk] at hne
    simp only [Pool.findProv, hnone, Option.map_none, Option.isSome_none,
      Bool.false_eq_true, if_false, keys_setProv]
    simpa using List.Nodup.append hnd (by simp) (by simpa using hnotmem)

theorem removeLiquidity_full_ok {pool : Pool} {prov : String} {a : ℚ} {e : ProviderEntry}
    (hf : pool.findProv prov = some e) (hfull : e.amount = a) (hep : e.entryPrice ≠ 0) :
    removeLiquidity pool prov a =
      .ok { pool with
              providers := delProv pool.providers prov
              totalLiquidity := max MIN_LIQUIDITY (pool.totalLiquidity - a) } := by
  unfold removeLiquidity
  rw [hf]
  simp [hfull, calcImpermanentLossCheck, hep]

theorem removeLiquidity_partial_ok {pool : Pool} {prov : String} {a : ℚ} {e : ProviderEntry}
    (hf : pool.findProv prov = some e) (hpart : a < e.amount) :
    removeLiquidity pool prov a =
      .ok { pool with
              providers := setProv pool.providers prov { e with amount := e.amount - a }
              totalLiquidity := max MIN_LIQUIDITY (pool.totalLiquidity - a) } := by
  unfold removeLiquidity
  rw [hf]
  simp [not_lt.mpr hpart.le, (ne_of_gt hpart), sub_nonpos, not_le.mpr hpart]

theorem removeLiquidity_total {pool pool' : Pool} {prov : String} {a : ℚ}
    (h : removeLiquidity pool prov a = .ok pool') :
    pool'.totalLiquidity = max MIN_LIQUIDITY (pool.totalLiquidity - a) := by
  unfold removeLiquidity at h
  rcases hf : pool.findProv prov with _ | e <;> rw [hf] at h
  · cases h
  · by_cases hlt : e.amount < a
    · simp [hlt] at h
    · simp only [hlt, if_false] at h
      by_cases hfull : e.amount = a
      · by_cases hep : e.entryPrice = 0
        · simp [hfull, calcImpermanentLossCheck, hep] at h
        · simp only [hfull, if_true, calcImpermanentLossCheck, hep, if_false] at h
          cases h
          rfl
      · simp only [hfull, if_false] at h
        split at h <;> cases h <;> rfl

/-! ## Claim theorems: AMM liquidity pools -/

/-- C2 counterexample.  A buy of 100 contracts against a fresh pool
(`totalLiquidity = 1000`, quoted `bid = 0.40`, `ask = 0.50`, `mid = 0.45`)
is charged `fee = 100·0.50·0.004 = 0.2`, computed from the pre-impact ask,
while the claim's `executionPrice·quantity·0.004 = 0.575·100·0.004 = 0.23`. -/
theorem executeTrade_fee_cex :
    ((executeTrade (initializePool (1/2)) true 100 (45/100) (4/10) (1/2)).2.fee = 1/5) ∧
    ((executeTrade (initializePool (1/2)) true 100 (45/100) (4/10) (1/2)).2.executionPrice
      = 23/40) ∧
    (1/5 : ℚ) ≠ (23/40) * 100 * TOTAL_FEE_PERCENT := by
  refine ⟨?_, ?_, by norm_num [TOTAL_FEE_PERCENT]⟩ <;>
    · simp only [executeTrade, initializePool, TOTAL_FEE_PERCENT, MIN_LIQUIDITY,
        PRICE_IMPACT_MULTIPLIER, min_def]
      norm_num

/-- C2 (amended).  For every pool trade: the price impact is
`min(0.15, (quantity/effectiveLiquidity)·2)` with `effectiveLiquidity =
totalLiquidity` when it is nonzero and `MIN_LIQUIDITY` otherwise (the JS
`pool.totalLiquidity || MIN_LIQUIDITY`; this agrees with
`max(totalLiquidity, MIN_LIQUIDITY)` for every pool at or above the 1000
floor); the execution price is `ask·(1+impact)` for a buy and
`bid·(1−impact)` for a sell; buy (resp. sell) volume increases by the
quantity; and the fee is `quotedPrice·quantity·0.004` where `quotedPrice`
is the pre-impact ask (buy) resp. bid (sell) — not the execution price. -/
theorem executeTrade_spec (pool : Pool) (isBuy : Bool)
    (amount midPrice bidPrice askPrice : ℚ) :
    let eff := if pool.totalLiquidity = 0 then MIN_LIQUIDITY else pool.totalLiquidity
    let impact := min (15/100) ((amount / eff) * PRICE_IMPACT_MULTIPLIER)
    let r := executeTrade pool isBuy amount midPrice bidPrice askPrice
    r.2.priceImpactPct = impact * 100 ∧
    r.2.executionPrice = (if isBuy then askPrice * (1 + impact) else bidPrice * (1 - impact)) ∧
    r.2.fee = amount * (if isBuy then askPrice else bidPrice) * TOTAL_FEE_PERCENT ∧
    r.1.buyVolume = pool.buyVolume + (if isBuy then amount else 0) ∧
    r.1.sellVolume = pool.sellVolume + (if isBuy then 0 else amount) ∧
    r.1.totalLiquidity = pool.totalLiquidity := by
  cases isBuy <;> simp [executeTrade]

/-- C3 counterexample.  `addLiquidity` with the non-positive amount `-5`
is not rejected: it changes `totalLiquidity` from 1000 to 995 and records
a provider contribution of `-5` (the source performs no amount
validation and has no `InvalidAmount` error). -/
theorem addLiquidity_no_reject_cex :
    (addLiquidity (initializePool (1/2)) "p" (-5)).totalLiquidity = 995 ∧
    (initializePool (1/2)).totalLiquidity = 1000 ∧
    (addLiquidity (initializePool (1/2)) "p" (-5)).provAmount "p" = -5 := by
  refine ⟨?_, by norm_num [initializePool, MIN_LIQUIDITY], ?_⟩ <;>
    · simp only [addLiquidity, initializePool, Pool.provAmount, Pool.findProv,
        MIN_LIQUIDITY, setProv, List.find?, List.nil_append]
      norm_num

/-- C3 (amended).  `addLiquidity` performs no validation of the amount:
for every amount (positive, zero or negative) it adds the amount to the
provider's tracked contribution and to `totalLiquidity` (with
`totalLiquidity` first defaulted to `MIN_LIQUIDITY` when it is 0). -/
theorem addLiquidity_spec (pool : Pool) (prov : String) (a : ℚ) :
    (addLiquidity pool prov a).totalLiquidity =
      (if pool.totalLiquidity = 0 then MIN_LIQUIDITY else pool.totalLiquidity) + a ∧
    (addLiquidity pool prov a).provAmount prov = pool.provAmount prov + a := by
  refine ⟨by simp [addLiquidity], ?_⟩
  simp [Pool.provAmount, findProv_addLiquidity_self]

/-- C7 counterexample.  A reachable pool whose provider entry records
`entryPrice = 0` (the pool was created with price 0, as `calculatePrice`
does for `currentProbability = 0`): withdrawing the provider's full
contribution of 100 is rejected with `'Initial price is required to
calculate impermanent loss'` instead of deleting the entry, because the
full-withdrawal path runs `calculateImpermanentLoss` before mutating. -/
theorem removeLiquidity_full_cex :
    (addLiquidity (initializePool 0) "p" 100).provAmount "p" = 100 ∧
    removeLiquidity (addLiquidity (initializePool 0) "p" 100) "p" 100
      = .error .initialPriceRequired := by
  constructor
  · simp only [addLiquidity, initializePool, Pool.provAmount, Pool.findProv,
      MIN_LIQUIDITY, setProv, List.find?, List.nil_append]
    norm_num
  · simp only [removeLiquidity, addLiquidity, initializePool, Pool.findProv,
      MIN_LIQUIDITY, setProv, calcImpermanentLossCheck, List.find?, List.nil_append]
    norm_num

/-- C7 (amended).  On a pool whose provider map has no duplicate keys (a JS
object cannot): a `removeLiquidity` for more than the provider's tracked
contribution (or for an unknown provider) is rejected with
`'Insufficient liquidity'`, and the throw happens before any mutation, so
the pool is unchanged; a full-contribution withdrawal deletes the
provider's entry and clamps `totalLiquidity` — provided the entry's
recorded `entryPrice` is nonzero (otherwise the impermanent-loss
computation rejects the withdrawal, see the counterexample). -/
theorem removeLiquidity_spec (pool : Pool) (prov : String) (a : ℚ)
    (hnd : (pool.providers.map Prod.fst).Nodup) :
    ((∀ e, pool.findProv prov = some e → e.amount < a) →
        removeLiquidity pool prov a = .error .insufficientLiquidity) ∧
    (∀ e, pool.findProv prov = some e → e.amount = a → e.entryPrice ≠ 0 →
        ∃ pool', removeLiquidity pool prov a = .ok pool' ∧
          pool'.findProv prov = none ∧
          pool'.totalLiquidity = max MIN_LIQUIDITY (pool.totalLiquidity - a)) := by
  constructor
  · intro h
    unfold removeLiquidity
    rcases hf : pool.findProv prov with _ | e
    · rfl
    · simp [h e hf]
  · intro e hf hfull hep
    refine ⟨_, removeLiquidity_full_ok hf hfull hep, ?_, rfl⟩
    simp only [Pool.findProv]
    rw [find?_delProv_self hnd]
    rfl

/-- C8 counterexample.  On a reachable pool with price 0 and
`totalLiquidity = 1000`, `addLiquidity("p", 100)` followed by
`removeLiquidity("p", 100)` does not restore the prior `totalLiquidity`:
the withdrawal is rejected (`'Initial price is required ...'`, since the
new provider's `entryPrice` was recorded as the pool price 0), leaving
`totalLiquidity = 1100 ≠ 1000` and the provider entry in place. -/
theorem liquidity_roundtrip_cex :
    (addLiquidity (initializePool 0) "p" 100).totalLiquidity = 1100 ∧
    (initializePool 0).totalLiquidity = 1000 ∧
    removeLiquidity (addLiquidity (initializePool 0) "p" 100) "p" 100
      = .error .initialPriceRequired := by
  refine ⟨?_, by norm_num [initializePool, MIN_LIQUIDITY], ?_⟩
  · simp only [addLiquidity, initializePool, Pool.findProv, MIN_LIQUIDITY,
      setProv, List.find?, List.nil_append]
    norm_num
  · simp only [removeLiquidity, addLiquidity, initializePool, Pool.findProv,
      MIN_LIQUIDITY, setProv, calcImpermanentLossCheck, List.find?, List.nil_append]
    norm_num

/-- C8 (amended).  For a pool at or above the 1000 liquidity floor (true of
every pool the engine creates under the spec's positive-amount contract),
a provider with a non-negative tracked balance, and a positive amount:
`addLiquidity(p, a)` followed by `removeLiquidity(p, a)` with nothing in
between succeeds and restores the prior `totalLiquidity`, and deletes the
provider's entry when the balance reaches 0 — provided that, when the
provider is departing entirely (prior balance 0), the entry price it was
recorded with (the pool price at deposit time for a new provider) is
nonzero; otherwise the withdrawal is rejected (see the counterexample). -/
theorem liquidity_roundtrip (pool : Pool) (prov : String) (a : ℚ)
    (hnd : (pool.providers.map Prod.fst).Nodup)
    (htot : MIN_LIQUIDITY ≤ pool.totalLiquidity)
    (_hpos : 0 < a)
    (hbal : 0 ≤ pool.provAmount prov)
    (hzero : pool.provAmount prov = 0 →
        ((pool.findProv prov).map (·.entryPrice)).getD pool.price ≠ 0) :
    ∃ pool', removeLiquidity (addLiquidity pool prov a) prov a = .ok pool' ∧
      pool'.totalLiquidity = pool.totalLiquidity ∧
      (pool.provAmount prov = 0 → pool'.findProv prov = none) := by
  have htne : pool.totalLiquidity ≠ 0 := by
    have : (0:ℚ) < 1000 := by norm_num
    exact ne_of_gt (lt_of_lt_of_le (by norm_num [MIN_LIQUIDITY] at htot ⊢; linarith) le_rfl)
  have hf1 := findProv_addLiquidity_self pool prov a
  have htot1 : (addLiquidity pool prov a).totalLiquidity = pool.totalLiquidity + a := by
    simp [addLiquidity, htne]
  have hmax : max MIN_LIQUIDITY (pool.totalLiquidity + a - a) = pool.totalLiquidity := by
    rw [add_sub_cancel_right]
    exact max_eq_right htot
  rcases eq_or_lt_of_le hbal with hb0 | hbpos
  · -- prior balance 0: the withdrawal is a full withdrawal
    have hfullamt : (pool.provAmount prov + a) = a := by rw [← hb0]; ring
    refine ⟨_, removeLiquidity_full_ok hf1 (by simpa using hfullamt) ?_, ?_, ?_⟩
    · simpa using hzero hb0.symm
    · simp only [htot1, hmax]
    · intro _
      simp only [Pool.findProv]
      rw [find?_delProv_self (keys_addLiquidity_nodup prov a hnd)]
      rfl
  · -- prior balance positive: a partial withdrawal remains
    refine ⟨_, removeLiquidity_partial_ok hf1 (by simpa using by linarith), ?_, ?_⟩
    · simp only [htot1, hmax]
    · intro hb0
      rw [← hb0] at hbpos
      exact absurd rfl (ne_of_gt hbpos)

/-- C10 counterexample.  The claimed invariant fails because `addLiquidity`
does not validate its amount: one `addLiquidity("p", -500)` on a freshly
seeded pool drops `totalLiquidity` from 1000 to 500 — below
`MIN_LIQUIDITY`, and a decrease caused by `addLiquidity`. -/
theorem minLiquidity_invariant_cex :
    (runPool (1/2) [.addLiq "p" (-500)]).totalLiquidity = 500 ∧
    ((500:ℚ) < MIN_LIQUIDITY) := by
  constructor
  · simp only [runPool, List.foldl, poolStep, addLiquidity, initializePool,
      MIN_LIQUIDITY, Pool.findProv, setProv, List.find?, List.nil_append]
    norm_num
  · norm_num [MIN_LIQUIDITY]

/-- One step of the pool state machine keeps `totalLiquidity ≥ 1000`
whenever any `addLiquidity` amount is positive. -/
theorem poolStep_total_ge (pool : Pool) (op : PoolOp) (hop : op.addPositive)
    (ht : MIN_LIQUIDITY ≤ pool.totalLiquidity) :
    MIN_LIQUIDITY ≤ (poolStep pool op).totalLiquidity := by
  cases op with
  | addLiq prov a =>
    have hne : pool.totalLiquidity ≠ 0 := by
      norm_num [MIN_LIQUIDITY] at ht
      linarith
    have hpos : 0 < a := hop
    simp only [poolStep, addLiquidity, hne, if_false]
    linarith
  | remLiq prov a =>
    simp only [poolStep]
    rcases hres : removeLiquidity pool prov a with err | pool'
    · exact ht
    · rw [removeLiquidity_total hres]
      exact le_max_left _ _
  | trade isBuy amount midPrice bidPrice askPrice =>
    cases isBuy <;> simpa [poolStep, executeTrade] using ht
  | reprice midPrice bidPrice askPrice => exact ht

/-- The fold of `poolStep` preserves the liquidity floor. -/
theorem foldl_poolStep_total_ge : ∀ (ops : List PoolOp) (pool : Pool),
    (∀ op ∈ ops, op.addPositive) → MIN_LIQUIDITY ≤ pool.totalLiquidity →
    MIN_LIQUIDITY ≤ (ops.foldl poolStep pool).totalLiquidity := by
  intro ops
  induction ops with
  | nil => exact fun pool _ h => h
  | cons op rest ih =>
    intro pool hops h
    rw [List.foldl_cons]
    exact ih _ (fun o ho => hops o (List.mem_cons_of_mem _ ho))
      (poolStep_total_ge _ _ (hops op (List.mem_cons_self _ _)) h)

/-- C10 (amended).  Provided every `addLiquidity` in the run uses a
positive amount (the spec's contract for `addLiquidity`; the source
performs no validation, see the counterexample), every pool reachable from
initialization keeps `totalLiquidity ≥ MIN_LIQUIDITY = 1000`: pools are
seeded with 1000, positive deposits only increase the total, trades and
repricings never change it, and withdrawals clamp it at 1000 from below
(so a withdrawal may decrease the total by less than the withdrawn
amount). -/
theorem minLiquidity_invariant (p0 : ℚ) (ops : List PoolOp)
    (hpos : ∀ op ∈ ops, op.addPositive) :
    MIN_LIQUIDITY ≤ (runPool p0 ops).totalLiquidity :=
  foldl_poolStep_total_ge ops (initializePool p0) hpos (le_refl _)

/-- Witness for C7's theorem at a concrete pool (one provider `"p"` with
contribution 100 and entry price 1/2). -/
theorem removeLiquidity_spec_witness :
    (removeLiquidity (addLiquidity (initializePool (1/2)) "p" 100) "p" 200
      = .error .insufficientLiquidity) ∧
    (∃ pool', removeLiquidity (addLiquidity (initializePool (1/2)) "p" 100) "p" 100
        = .ok pool' ∧
      pool'.findProv "p" = none ∧
      pool'.totalLiquidity = max MIN_LIQUIDITY
        ((addLiquidity (initializePool (1/2)) "p" 100).totalLiquidity - 100)) := by
  have h2 : (addLiquidity (initializePool (1/2)) "p" 100).findProv "p"
      = some { amount := 100, entryPrice := 1/2 } := by
    simp only [addLiquidity, initializePool, Pool.findProv, MIN_LIQUIDITY, setProv,
      List.find?, List.nil_append]
    norm_num
  have hnd : (((addLiquidity (initializePool (1/2)) "p" 100)).providers.map Prod.fst).Nodup := by
    simp [addLiquidity, initializePool, Pool.findProv, setProv, List.find?]
  constructor
  · refine (removeLiquidity_spec (addLiquidity (initializePool (1/2)) "p" 100)
      "p" 200 hnd).1 (fun e he => ?_)
    rw [h2] at he
    cases he
    norm_num
  · exact (removeLiquidity_spec (addLiquidity (initializePool (1/2)) "p" 100)
      "p" 100 hnd).2 { amount := 100, entryPrice := 1/2 } h2 rfl (by norm_num)

/-- Witness for C8's theorem at a fresh pool with price 1/2 and a new
provider `"q"` depositing then withdrawing 100. -/
theorem liquidity_roundtrip_witness :
    ∃ pool', removeLiquidity (addLiquidity (initializePool (1/2)) "q" 100) "q" 100
        = .ok pool' ∧
      pool'.totalLiquidity = (initializePool (1/2)).totalLiquidity ∧
      ((initializePool (1/2)).provAmount "q" = 0 → pool'.findProv "q" = none) :=
  liquidity_roundtrip (initializePool (1/2)) "q" 100
    (by simp [initializePool])
    (le_refl _)
    (by norm_num)
    (by simp [initializePool, Pool.provAmount, Pool.findProv, List.find?])
    (fun _ => by
      simp only [initializePool, Pool.findProv, List.find?, Option.map_none',
        Option.getD_none]
      norm_num)

/-- Witness for C10's theorem on a run of one positive deposit and one
withdrawal. -/
theorem minLiquidity_invariant_witness :
    MIN_LIQUIDITY ≤ (runPool (1/2) [.addLiq "p" 5, .remLiq "p" 5]).totalLiquidity :=
  minLiquidity_invariant (1/2) [.addLiq "p" 5, .remLiq "p" 5] (by
    intro op hop
    simp only [List.mem_cons, List.not_mem_nil, or_false] at hop
    rcases hop with rfl | rfl
    · show (0:ℚ) < 5; norm_num
    · trivial)

/-! ## Claim lemmas: order book matching -/

theorem sorted_fill_head_bid {a : Order} {t : List Order} (ts : ℚ)
    (h : (a :: t).Sorted bidBefore) :
    ({ a with filled := a.filled + ts } :: t).Sorted bidBefore := by
  rw [List.sorted_cons] at h ⊢
  exact ⟨fun b hb => h.1 b hb, h.2⟩

theorem sorted_fill_head_ask {a : Order} {t : List Order} (ts : ℚ)
    (h : (a :: t).Sorted askBefore) :
    ({ a with filled := a.filled + ts } :: t).Sorted askBefore := by
  rw [List.sorted_cons] at h ⊢
  exact ⟨fun b hb => h.1 b hb, h.2⟩

/-- The match loop, run with fuel at least the total number of resting
orders (each iteration removes at least one, since the trade size is the
`min` of the two head remainders), preserves sortedness of both sides and
ends in a state where no remaining bid price reaches any remaining ask
price. -/
theorem matchLoop_spec (fuel : Nat) :
    ∀ (bids asks : List Order) (trades : List BookTrade) (touched : List Order),
      bids.length + asks.length ≤ fuel →
      bids.Sorted bidBefore → asks.Sorted askBefore →
      (matchLoop fuel bids asks trades touched).1.Sorted bidBefore ∧
      (matchLoop fuel bids asks trades touched).2.1.Sorted askBefore ∧
      ∀ b ∈ (matchLoop fuel bids asks trades touched).1,
        ∀ a ∈ (matchLoop fuel bids asks trades touched).2.1, b.price < a.price := by
  induction fuel with
  | zero =>
    intro bids asks trades touched hlen hb ha
    have hbe : bids = [] := List.eq_nil_of_length_eq_zero (by omega)
    have hae : asks = [] := List.eq_nil_of_length_eq_zero (by
      have := hbe ▸ hlen
      simpa using this)
    subst hbe; subst hae
    simp [matchLoop]
  | succ fuel ih =>
    intro bids asks trades touched hlen hb ha
    rcases bids with _ | ⟨topBid, restBids⟩
    · refine ⟨by simp [matchLoop], by simpa [matchLoop] using ha, by simp [matchLoop]⟩
    · rcases asks with _ | ⟨topAsk, restAsks⟩
      · refine ⟨by simpa [matchLoop] using hb, by simp [matchLoop], by simp [matchLoop]⟩
      · simp only [List.length_cons] at hlen
        by_cases hcross : topBid.price ≥ topAsk.price
        · simp only [matchLoop, if_pos hcross]
          by_cases hbf : topBid.filled + min (topBid.quantity - topBid.filled)
              (topAsk.quantity - topAsk.filled) ≥ topBid.quantity
          · by_cases haf : topAsk.filled + min (topBid.quantity - topBid.filled)
                (topAsk.quantity - topAsk.filled) ≥ topAsk.quantity
            · simp only [hbf, haf, if_pos, if_true]
              exact ih restBids restAsks _ _ (by omega)
                ((List.sorted_cons.mp hb).2) ((List.sorted_cons.mp ha).2)
            · simp only [hbf, haf, if_pos, if_true, if_neg, if_false]
              exact ih restBids _ _ _ (by simp only [List.length_cons]; omega)
                ((List.sorted_cons.mp hb).2)
                (sorted_fill_head_ask _ ha)
          · by_cases haf : topAsk.filled + min (topBid.quantity - topBid.filled)
                (topAsk.quantity - topAsk.filled) ≥ topAsk.quantity
            · simp only [hbf, haf, if_pos, if_true, if_neg, if_false]
              exact ih _ restAsks _ _ (by simp only [List.length_cons]; omega)
                (sorted_fill_head_bid _ hb)
                ((List.sorted_cons.mp ha).2)
            · exfalso
              have h1 : min (topBid.quantity - topBid.filled) (topAsk.quantity - topAsk.filled)
                  < topBid.quantity - topBid.filled := by
                rw [not_le] at hbf; linarith
              have h2 : min (topBid.quantity - topBid.filled) (topAsk.quantity - topAsk.filled)
                  < topAsk.quantity - topAsk.filled := by
                rw [not_le] at haf; linarith
              exact absurd (lt_min h1 h2) (lt_irrefl _)
        · simp only [matchLoop, if_neg hcross]
          refine ⟨hb, ha, fun b hbm a ham => ?_⟩
          have hbp : b.price ≤ topBid.price := by
            rcases List.mem_cons.mp hbm with rfl | hbm'
            · exact le_refl _
            · exact (List.sorted_cons.mp hb).1 b hbm'
          have hap : topAsk.price ≤ a.price := by
            rcases List.mem_cons.mp ham with rfl | ham'
            · exact le_refl _
            · exact (List.sorted_cons.mp ha).1 a ham'
          have hlt : topBid.price < topAsk.price := not_le.mp hcross
          linarith

/-- `matchOrders` on a book with sorted sides yields sorted sides and the
non-crossing invariant. -/
theorem matchOrders_spec (s : BookState)
    (hb : s.bids.Sorted bidBefore) (ha : s.asks.Sorted askBefore) :
    (matchOrders s).1.bids.Sorted bidBefore ∧
    (matchOrders s).1.asks.Sorted askBefore ∧
    crossFree (matchOrders s).1 := by
  have h := matchLoop_spec (s.bids.length + s.asks.length) s.bids s.asks [] []
    (le_refl _) hb ha
  exact ⟨h.1, h.2.1, h.2.2⟩

/-- A successful `placeOrder` on a book with sorted sides leaves sorted
sides and the non-crossing invariant. -/
theorem placeOrder_inv {s : BookState} {userId : String} {isBid : Bool}
    {price q : ℚ} {ts : Nat} {s' : BookState} {tr : List BookTrade}
    (hb : s.bids.Sorted bidBefore) (ha : s.asks.Sorted askBefore)
    (h : placeOrder s userId isBid price q ts = some (s', tr)) :
    s'.bids.Sorted bidBefore ∧ s'.asks.Sorted askBefore ∧ crossFree s' := by
  unfold placeOrder at h
  split at h
  · cases h
  · rw [Option.some_inj] at h
    have hs' : s' = (matchOrders _).1 := congrArg Prod.fst h.symm
    rw [hs']
    apply matchOrders_spec
    · cases isBid <;> simp only [if_true, if_false, Bool.false_eq_true]
      · exact hb
      · exact List.sorted_insertionSort bidBefore _
    · cases isBid <;> simp only [if_true, if_false, Bool.false_eq_true]
      · exact List.sorted_insertionSort askBefore _
      · exact ha

theorem runPlace_inv (cmds : List PlaceCmd) : ∀ s : BookState,
    s.bids.Sorted bidBefore → s.asks.Sorted askBefore →
    crossFree s →
    (runPlace s cmds).bids.Sorted bidBefore ∧
    (runPlace s cmds).asks.Sorted askBefore ∧
    crossFree (runPlace s cmds) := by
  induction cmds with
  | nil => exact fun s hb ha hc => ⟨hb, ha, hc⟩
  | cons c rest ih =>
    intro s hb ha hc
    have hstep : (placeStep s c).bids.Sorted bidBefore ∧
        (placeStep s c).asks.Sorted askBefore ∧ crossFree (placeStep s c) := by
      unfold placeStep
      rcases hp : placeOrder s c.userId c.isBid c.price c.quantity c.timestamp
        with _ | ⟨s2, tr⟩
      · exact ⟨hb, ha, hc⟩
      · exact placeOrder_inv hb ha hp
    simpa only [runPlace, List.foldl_cons] using
      ih (placeStep s c) hstep.1 hstep.2.1 hstep.2.2

/-- C4.  For every sequence of `placeOrder` calls from an empty book, after
the `placeOrder`/matching cycle completes no resting bid price reaches any
resting ask price (all resting orders are `active`: `placeOrder` inserts
active orders and the match loop removes an order exactly when it marks
it filled). -/
theorem orderBook_crossFree (cmds : List PlaceCmd) :
    crossFree (runPlace emptyBook cmds) :=
  (runPlace_inv cmds emptyBook (by simp [emptyBook]) (by simp [emptyBook])
    (by intro b hb; simp [emptyBook] at hb)).2.2

/-- C5.  On an empty book, placing bid 100@0.40 (time 1) then ask 100@0.35
(time 2) produces exactly one trade of 100 at 0.40 — the earlier resting
order's price — both orders end with status `filled` (fill 100), and the
book holds no resting orders afterward. -/
theorem orderBook_scenario :
    ∃ s1 : BookState,
      placeOrder emptyBook "alice" true (40/100) 100 1 = some (s1, []) ∧
      placeOrder s1 "bob" false (35/100) 100 2 = some
        (⟨[], [],
          [⟨1, "alice", true, 40/100, 100, 1, .filled, 100⟩,
           ⟨2, "bob", false, 35/100, 100, 2, .filled, 100⟩], 2⟩,
         [⟨1, 2, 40/100, 100⟩]) := by
  refine ⟨⟨[⟨1, "alice", true, 2/5, 100, 1, .active, 0⟩], [],
           [⟨1, "alice", true, 2/5, 100, 1, .active, 0⟩], 1⟩, ?_, ?_⟩
  · norm_num [placeOrder, matchOrders, matchLoop, updateOrders, emptyBook, round2, jsRound,
      List.insertionSort, List.orderedInsert, bidBefore, askBefore]
    exact fun h => absurd h (by decide)
  · norm_num [placeOrder, matchOrders, matchLoop, updateOrders, round2, jsRound,
      List.insertionSort, List.orderedInsert, bidBefore, askBefore]
    exact fun h => absurd h (by decide)

/-- The fill loop of `executeMarketOrder`, on a side whose orders are at
most fully filled and with enough total depth, fills exactly the requested
quantity, consuming the orders from the front: the `i`-th trade executes at
the `i`-th resting order's price. -/
theorem marketFillLoop_spec : ∀ (orders : List Order) (q : ℚ),
    0 ≤ q → q ≤ availableQuantity orders → (∀ o ∈ orders, o.filled ≤ o.quantity) →
    ((marketFillLoop q orders).1.map (·.quantity)).sum = q ∧
    (marketFillLoop q orders).1.map (·.price)
      = (orders.take (marketFillLoop q orders).1.length).map (·.price) := by
  intro orders
  induction orders with
  | nil =>
    intro q h0 hle _
    have hq : q = 0 := le_antisymm (by simpa [availableQuantity] using hle) h0
    subst hq
    simp [marketFillLoop]
  | cons c rest ih =>
    intro q h0 hle hfq
    by_cases hq0 : q ≤ 0
    · have hq : q = 0 := le_antisymm hq0 h0
      subst hq
      simp [marketFillLoop]
    · rw [not_le] at hq0
      have hcr0 : 0 ≤ c.quantity - c.filled := by
        have := hfq c (List.mem_cons_self _ _)
        linarith
      have havail : availableQuantity (c :: rest)
          = (c.quantity - c.filled) + availableQuantity rest := by
        simp [availableQuantity]
      by_cases hfull : c.filled + min q (c.quantity - c.filled) ≥ c.quantity
      · have hfcr : min q (c.quantity - c.filled) = c.quantity - c.filled :=
          le_antisymm (min_le_right _ _) (by linarith)
        have hrec := ih (q - min q (c.quantity - c.filled))
          (by simp [hfcr]; linarith [min_le_left q (c.quantity - c.filled)])
          (by rw [hfcr] at *; rw [havail] at hle; linarith)
          (fun o ho => hfq o (List.mem_cons_of_mem _ ho))
        simp only [marketFillLoop, if_neg (not_le.mpr hq0), if_pos hfull]
        constructor
        · simp only [List.map_cons, List.sum_cons]
          rw [hrec.1]
          ring
        · simp only [List.map_cons, List.length_cons, List.take_succ_cons]
          rw [hrec.2]
      · have hltcr : min q (c.quantity - c.filled) < c.quantity - c.filled := by
          rw [not_le] at hfull
          linarith
        have hminq : min q (c.quantity - c.filled) = q := by
          rcases min_cases q (c.quantity - c.filled) with ⟨h1, _⟩ | ⟨h1, _⟩
          · exact h1
          · rw [h1] at hltcr; linarith
        simp only [marketFillLoop, if_neg (not_le.mpr hq0), if_neg hfull]
        constructor
        · simp [hminq]
        · simp

/-- C6.  For every book side and market order of positive quantity `q` (on
orders whose fills do not exceed their quantities): if the total remaining
depth is below `q` the call throws `'Insufficient liquidity for market
order'` before touching any order; otherwise it succeeds, consumes resting
orders from the front (best price first, given the book's sort order),
fills exactly `q` in total, and reports the volume-weighted average price
of the executed trades. -/
theorem executeMarketOrder_spec (orders : List Order) (q : ℚ)
    (hq : 0 < q) (hf : ∀ o ∈ orders, o.filled ≤ o.quantity) :
    (availableQuantity orders < q → executeMarketOrder orders q = .error ()) ∧
    (q ≤ availableQuantity orders →
      ∃ r, executeMarketOrder orders q = .ok r ∧
        (r.trades.map (·.quantity)).sum = q ∧
        r.averagePrice * q = (r.trades.map (fun t => t.price * t.quantity)).sum ∧
        r.trades.map (·.price) = (orders.take r.trades.length).map (·.price)) := by
  constructor
  · intro h
    simp [executeMarketOrder, h]
  · intro h
    have hnl : ¬ availableQuantity orders < q := not_lt.mpr h
    have hm := marketFillLoop_spec orders q hq.le h hf
    refine ⟨{ trades := (marketFillLoop q orders).1
              newSide := (marketFillLoop q orders).2.1
              touched := (marketFillLoop q orders).2.2
              averagePrice :=
                ((marketFillLoop q orders).1.map (fun t => t.price * t.quantity)).sum
                  / ((marketFillLoop q orders).1.map (·.quantity)).sum },
      by simp [executeMarketOrder, hnl], hm.1, ?_, hm.2⟩
    show ((marketFillLoop q orders).1.map (fun t => t.price * t.quantity)).sum
        / ((marketFillLoop q orders).1.map (·.quantity)).sum * q = _
    rw [hm.1, div_mul_cancel₀ _ (ne_of_gt hq)]

/-- Witness for C6's theorem: a book side of two asks (60@0.35, 50@0.40);
a market order for 100 succeeds with the stated fill properties, one for
120 is rejected. -/
theorem executeMarketOrder_spec_witness :
    (∃ r, executeMarketOrder
        [⟨1, "a", false, 35/100, 60, 1, .active, 0⟩,
         ⟨2, "b", false, 40/100, 50, 2, .active, 0⟩] 100 = .ok r ∧
      (r.trades.map (·.quantity)).sum = 100 ∧
      r.averagePrice * 100 = (r.trades.map (fun t => t.price * t.quantity)).sum ∧
      r.trades.map (·.price)
        = (([⟨1, "a", false, 35/100, 60, 1, .active, 0⟩,
             ⟨2, "b", false, 40/100, 50, 2, .active, 0⟩] :
            List Order).take r.trades.length).map (·.price)) ∧
    executeMarketOrder
        [⟨1, "a", false, 35/100, 60, 1, .active, 0⟩,
         ⟨2, "b", false, 40/100, 50, 2, .active, 0⟩] 120 = .error () := by
  constructor
  · refine (executeMarketOrder_spec _ 100 (by norm_num) ?_).2 ?_
    · intro o ho
      simp only [List.mem_cons, List.not_mem_nil, or_false] at ho
      rcases ho with rfl | rfl <;> norm_num
    · norm_num [availableQuantity]
  · refine (executeMarketOrder_spec _ 120 (by norm_num) ?_).1 ?_
    · intro o ho
      simp only [List.mem_cons, List.not_mem_nil, or_false] at ho
      rcases ho with rfl | rfl <;> norm_num
    · norm_num [availableQuantity]

/-! ## Claim lemmas: volatility -/

theorem usablePoints_cons_le (p : ℚ) (t : List ℚ) :
    (usablePoints t).length ≤ (usablePoints (p :: t)).length := by
  simp only [usablePoints, List.filter_cons]
  split
  · exact Nat.le_succ _
  · exact le_refl _

/-- If at least one log-return is produced, at least two usable points
exist (each return needs two consecutive usable endpoints). -/
theorem usablePoints_two_of_logReturns (jlog : ℚ → ℚ) :
    ∀ (l : List ℚ), 1 ≤ (logReturns jlog l).length → 2 ≤ (usablePoints l).length := by
  intro l
  induction l with
  | nil => intro h; simp [logReturns] at h
  | cons p t ih =>
    rcases t with _ | ⟨c, rest⟩
    · intro h; simp [logReturns] at h
    · intro h
      by_cases hu : usablePoint p ∧ usablePoint c
      · have hup : usablePoints (p :: c :: rest)
            = p :: c :: (rest.filter (fun q => decide (usablePoint q))) := by
          simp [usablePoints, List.filter_cons, hu.1, hu.2]
        rw [hup]
        simp only [List.length_cons]
        omega
      · have hret : logReturns jlog (p :: c :: rest) = logReturns jlog (c :: rest) := by
          simp [logReturns, hu]
        rw [hret] at h
        have h2 := ih h
        have hmono := usablePoints_cons_le p (c :: rest)
        omega

/-- The number of log-returns is less than the number of points. -/
theorem logReturns_length_le (jlog : ℚ → ℚ) :
    ∀ (l : List ℚ), (logReturns jlog l).length ≤ l.length - 1 := by
  intro l
  induction l with
  | nil => simp [logReturns]
  | cons p t ih =>
    rcases t with _ | ⟨c, rest⟩
    · simp [logReturns]
    · have := ih
      simp only [List.length_cons] at this ⊢
      simp only [logReturns, List.length_append, List.length_cons]
      split
      · simp only [List.length_singleton]
        omega
      · simp only [List.length_nil]
        omega

/-- C9.  The historical volatility estimate equals the sample standard
deviation of the log-returns of probability — returns over consecutive
pairs both of whose endpoints lie strictly inside (0,1); pairs touching an
excluded point are skipped — multiplied by `sqrt 365` and floored at the
configured minimum 0.25, whenever at least 2 such returns exist; and
whenever fewer than 2 usable points are available the estimator returns
the configured default 0.50 instead of failing.  Stated for every choice
of the `Math.log`/`Math.sqrt` primitives. -/
theorem historicalVolatility_spec (jlog jsqrt : ℚ → ℚ) (data : List ℚ) :
    (2 ≤ (logReturns jlog data).length →
      calculateHistoricalVolatility jlog jsqrt data
        = max minVolatility (sampleStdDev jsqrt (logReturns jlog data) * jsqrt 365)) ∧
    ((usablePoints data).length < 2 →
      calculateHistoricalVolatility jlog jsqrt data = defaultVolatility) := by
  constructor
  · intro h2
    have hlen : ¬ data.length < 2 := by
      have := logReturns_length_le jlog data
      omega
    have hret : ¬ (logReturns jlog data).length < 2 := by omega
    simp only [calculateHistoricalVolatility, hlen, if_false, hret, sampleStdDev]
  · intro hu
    by_cases hlen : data.length < 2
    · simp [calculateHistoricalVolatility, hlen]
    · have hret : (logReturns jlog data).length < 2 := by
        by_contra hc
        have h1 : 1 ≤ (logReturns jlog data).length := by omega
        have := usablePoints_two_of_logReturns jlog data h1
        omega
      simp [calculateHistoricalVolatility, hlen, hret]

/-- Witness for C9's theorem: the series `[50, 60, 50]` (two usable
returns) takes the annualized-stddev path; the single-point series `[50]`
returns the default. -/
theorem historicalVolatility_spec_witness :
    calculateHistoricalVolatility id id [50, 60, 50]
      = max minVolatility (sampleStdDev id (logReturns id [50, 60, 50]) * id 365) ∧
    calculateHistoricalVolatility id id [50] = defaultVolatility := by
  constructor
  · refine (historicalVolatility_spec id id [50, 60, 50]).1 ?_
    norm_num [logReturns, usablePoint]
  · refine (historicalVolatility_spec id id [50]).2 ?_
    calc (usablePoints [50]).length ≤ ([(50:ℚ)]).length := List.length_filter_le _ _
    _ < 2 := by norm_num

/-! ## Claim lemmas: pricing models at expiry -/

theorem backStep_length (d p : JsNum) :
    ∀ l : List JsNum, (backStep d p l).length = l.length - 1 := by
  intro l
  induction l with
  | nil => rfl
  | cons a t ih =>
    rcases t with _ | ⟨b, rest⟩
    · rfl
    · simp only [backStep, List.length_cons] at ih ⊢
      omega

theorem jmul_none_right (d : JsNum) : jmul d none = none := by
  cases d <;> rfl

theorem backStep_none_mem (d : JsNum) :
    ∀ (l : List JsNum), ∀ x ∈ backStep d none l, x = none := by
  intro l
  induction l with
  | nil => intro x hx; cases hx
  | cons a t ih =>
    rcases t with _ | ⟨b, rest⟩
    · intro x hx; cases hx
    · intro x hx
      rcases List.mem_cons.mp hx with rfl | hx'
      · show jmul d (jadd (jmul none a) (jmul (jsub (some 1) none) b)) = none
        cases a <;> cases b <;> simp [jmul, jadd, jsub, jmul_none_right]
      · exact ih x hx'

theorem iterate_backStep_headD_none (d : JsNum) :
    ∀ (n : Nat) (l : List JsNum), 1 ≤ n → n + 1 ≤ l.length →
    ((backStep d none)^[n] l).headD none = none := by
  intro n
  induction n with
  | zero => intro l h; omega
  | succ n ih =>
    intro l _ hlen
    rw [Function.iterate_succ_apply]
    by_cases hn : 1 ≤ n
    · refine ih _ hn ?_
      rw [backStep_length]
      omega
    · have hn0 : n = 0 := by omega
      subst hn0
      simp only [Function.iterate_zero, id]
      have hlen1 : 1 ≤ (backStep d none l).length := by
        rw [backStep_length]
        omega
      rcases hx : backStep d none l with _ | ⟨x, xs⟩
      · rw [hx] at hlen1; simp at hlen1
      · have hxn := backStep_none_mem d l x (hx ▸ List.mem_cons_self x xs)
        simp [hx, hxn]

/-- At `timeToExpiry = 0` the binomial tree's parameters degenerate:
`dt = 0`, `u = e^(σ·√0) = 1`, `d = 1/u = 1`, so the risk-neutral
probability `p = (e^(r·0) − d)/(u − d) = 0/0` is NaN, and the backward
induction propagates NaN to the root. -/
theorem buildTreeRoot_T0 (prims : MathPrims)
    (hexp : prims.exp (some 0) = some 1) (hsqrt : prims.sqrt 0 = some 0)
    (S K vol r : ℚ) :
    buildTreeRoot prims 5 S K 0 vol r = none := by
  have hdt : (0:ℚ) / ((5:Nat):ℚ) = 0 := by norm_num
  have hu : prims.exp (jmul (some vol) (prims.sqrt ((0:ℚ) / ((5:Nat):ℚ)))) = some 1 := by
    rw [hdt, hsqrt]
    show prims.exp (some (vol * 0)) = some 1
    rw [mul_zero, hexp]
  have hp : jdiv (jsub (prims.exp (some (r * ((0:ℚ) / ((5:Nat):ℚ)))))
        (jdiv (some 1) (prims.exp (jmul (some vol) (prims.sqrt ((0:ℚ) / ((5:Nat):ℚ)))))))
      (jsub (prims.exp (jmul (some vol) (prims.sqrt ((0:ℚ) / ((5:Nat):ℚ)))))
        (jdiv (some 1) (prims.exp (jmul (some vol) (prims.sqrt ((0:ℚ) / ((5:Nat):ℚ))))))) =
      none := by
    rw [hu, hdt, mul_zero, hexp]
    show jdiv (jsub (some 1) (jdiv (some 1) (some 1)))
      (jsub (some 1) (jdiv (some 1) (some 1))) = none
    norm_num [jdiv, jsub]
  unfold buildTreeRoot
  dsimp only
  rw [hp]
  apply iterate_backStep_headD_none _ 5 _ (by norm_num) ?_
  simp

/-- C1 / code bug.  With `timeToExpiry = 0` the factory (selection policy
`T < 7/365 → tree model`) picks the binomial model, which has no `T ≤ 0`
guard: its tree parameters divide `0/0` and the returned mid price is NaN
(`none`) for every spot, strike, volatility, rate and option type — not
the claimed 0/1 payoff.  The closed-form model's own `T ≤ 0` branch (third
conjunct) shows the intended payoff the claim describes. -/
theorem pricing_T0_binomial_NaN (prims : MathPrims)
    (hexp : prims.exp (some 0) = some 1) (hsqrt : prims.sqrt 0 = some 0)
    (cp sp vol r lf : ℚ) (ot : OptionType) :
    createModelKind 0 = ModelKind.binomial ∧
    (factoryCalculatePrice prims
      { currentProbability := cp, strikeProbability := sp, timeToExpiry := 0,
        volatility := vol, riskFreeRate := r, optionType := ot,
        liquidityFactor := lf }).midPrice = none ∧
    (bsCalculatePrice prims
      { currentProbability := cp, strikeProbability := sp, timeToExpiry := 0,
        volatility := vol, riskFreeRate := r, optionType := ot,
        liquidityFactor := lf }).midPrice
      = some (match ot with
              | .call => if cp/100 > sp/100 then 1 else 0
              | .put => if cp/100 < sp/100 then 1 else 0) := by
  have hkind : createModelKind 0 = ModelKind.binomial := by
    unfold createModelKind
    norm_num
  have hsteps : treeSteps 0 = 5 := by
    norm_num [treeSteps]
  refine ⟨hkind, ?_, ?_⟩
  · show (match createModelKind (0:ℚ) with
      | .binomial => binomialCalculatePrice prims _
      | .blackScholes => bsCalculatePrice prims _).midPrice = none
    rw [hkind]
    show (binomialCalculatePrice prims _).midPrice = none
    unfold binomialCalculatePrice
    rw [hsteps]
    exact buildTreeRoot_T0 prims hexp hsqrt _ _ vol r
  · unfold bsCalculatePrice
    rw [if_pos (le_refl (0:ℚ))]

/-- Witness for C1's theorem at spot 60%, strike 50%, σ = 0.5, r = 0.05:
the selected model returns NaN where the claim requires mid = 1. -/
theorem pricing_T0_binomial_NaN_witness :
    stubPrims.exp (some 0) = some 1 ∧ stubPrims.sqrt 0 = some 0 ∧
    (factoryCalculatePrice stubPrims
      { currentProbability := 60, strikeProbability := 50, timeToExpiry := 0,
        volatility := 1/2, riskFreeRate := 1/20, optionType := .call,
        liquidityFactor := 1/10 }).midPrice = none :=
  ⟨by simp [stubPrims], by simp [stubPrims],
   (pricing_T0_binomial_NaN stubPrims (by simp [stubPrims]) (by simp [stubPrims])
     60 50 (1/2) (1/20) (1/10) .call).2.1⟩

end PolyCzar
